import Mathlib

/-!
Verification of the smart-pointer repository.

The source is two C++ template classes over a raw owned pointer:
`UniquePointer<T>` (src/uniquePointer.cpp), a move-only exclusive owner with
`release`/`reset`, and `smartPointer<T>` (the unnamed source file), a minimal
owning wrapper with implicit shallow copy.

Embedding conventions:
* A raw pointer value is `Ptr := Option Nat`; `none` is `nullptr` and
  `some r` is the address of resource `r` (resources are identified by
  natural numbers, as a fresh allocator like `new` would hand them out).
* `delete p` is modelled by its list of destruction events `deleteEvents p`:
  deleting a null pointer destroys nothing, deleting `some r` destroys
  resource `r` once.  Operations return the destruction events they perform,
  in order, so "destroyed exactly once" is a statement about event counts.
* Console output in the source is diagnostic only and is not modelled.
* For multi-instance properties (the exclusive-ownership invariant) a small
  machine `OwnerSys` tracks every live `UniquePointer` instance by an
  instance id, together with a fresh-resource allocator and the log of
  destroyed resources.
-/

/-- A raw pointer value: `none` is `nullptr`, `some r` is the address of
resource `r`. -/
abbrev Ptr := Option Nat

/-- Destruction events of the C++ statement `delete p`: deleting a null
pointer is a no-op; deleting a non-null pointer destroys its resource once. -/
def deleteEvents : Ptr → List Nat
  | none => []
  | some r => [r]

/-- `UniquePointer<T>` from src/uniquePointer.cpp: the single data member is
the raw pointer `T* ptr`. -/
structure UniquePointer where
  ptr : Ptr
deriving DecidableEq

/-- Constructor `explicit UniquePointer(T* p = nullptr) : ptr(p)`: stores the
handle, no side effect. -/
def UniquePointer.construct (p : Ptr) : UniquePointer := ⟨p⟩

/-- Destructor `~UniquePointer() { delete ptr; }`: returns the destruction
events it performs. -/
def UniquePointer.destruct (u : UniquePointer) : List Nat := deleteEvents u.ptr

/-- Move constructor `UniquePointer(UniquePointer&& other) : ptr(other.ptr)
{ other.ptr = nullptr; }`.  Returns (the new instance, the source after the
move, the destruction events performed), in that order. -/
def UniquePointer.moveConstruct (other : UniquePointer) :
    UniquePointer × UniquePointer × List Nat :=
  (⟨other.ptr⟩, ⟨none⟩, [])

/-- Move assignment `operator=(UniquePointer&& other)`.  The flag
`sameInstance` is the C++ address test `this == &other`; when it is true the
two arguments denote the one same object.  When the instances differ the code
runs `delete ptr; ptr = other.ptr; other.ptr = nullptr;`; when they are the
same it does nothing.  Returns (receiver after, source after, destruction
events performed). -/
def UniquePointer.moveAssign (self other : UniquePointer) (sameInstance : Bool) :
    UniquePointer × UniquePointer × List Nat :=
  if sameInstance then (self, other, [])
  else (⟨other.ptr⟩, ⟨none⟩, deleteEvents self.ptr)

/-- `T* release() { T* oldPtr = ptr; ptr = nullptr; return oldPtr; }`.
Returns (the returned raw pointer, the instance after, destruction events). -/
def UniquePointer.release (self : UniquePointer) : Ptr × UniquePointer × List Nat :=
  (self.ptr, ⟨none⟩, [])

/-- `void reset(T* p = nullptr) { delete ptr; ptr = p; }`: the old handle is
deleted, then the new handle is installed.  Returns (the instance after, the
destruction events performed). -/
def UniquePointer.reset (self : UniquePointer) (p : Ptr) :
    UniquePointer × List Nat :=
  (⟨p⟩, deleteEvents self.ptr)

/-- Dereference `T& operator*() const { return *ptr; }`: no null check is
performed; the result is the referenced resource when the handle is non-null
and undefined (`none`) when it is null. -/
def UniquePointer.deref (self : UniquePointer) : Option Nat := self.ptr

/-- Member access `T* operator->() const { return ptr; }`: returns the raw
handle unchecked. -/
def UniquePointer.arrow (self : UniquePointer) : Ptr := self.ptr

/-- The compound call `w.reset(w.release())`: the argument `w.release()` is
evaluated first, then `reset` runs on the updated instance with the released
raw pointer.  Returns (the instance after, all destruction events in order). -/
def UniquePointer.releaseThenReset (w : UniquePointer) :
    UniquePointer × List Nat :=
  let rel := w.release
  let rst := UniquePointer.reset rel.2.1 rel.1
  (rst.1, rel.2.2 ++ rst.2)

/-- `smartPointer<T>` from the unnamed source file: the single data member is
the raw pointer `T* ptr`.  The class declares no copy control, so the
compiler-generated shallow copy is available. -/
structure smartPointer where
  ptr : Ptr
deriving DecidableEq

/-- Constructor `explicit smartPointer(T* p = nullptr) : ptr(p)`. -/
def smartPointer.construct (p : Ptr) : smartPointer := ⟨p⟩

/-- Destructor `~smartPointer() { delete ptr; }`. -/
def smartPointer.destruct (s : smartPointer) : List Nat := deleteEvents s.ptr

/-- The implicitly generated copy constructor of `smartPointer`: memberwise
(shallow) copy of the raw pointer. -/
def smartPointer.copy (s : smartPointer) : smartPointer := ⟨s.ptr⟩

/-- Dereference `T& operator*() const { return *ptr; }` of `smartPointer`. -/
def smartPointer.deref (s : smartPointer) : Option Nat := s.ptr

/-- Member access `T* operator->() const { return ptr; }` of `smartPointer`. -/
def smartPointer.arrow (s : smartPointer) : Ptr := s.ptr

/-! ## A machine over many `UniquePointer` instances

To state the exclusive-ownership invariant we track every live instance.
Instances are named by natural-number ids; `owner i = some p` means instance
`i` is live with handle `p`, `owner i = none` means no live instance has id
`i`.  `nextRes` is the fresh-resource allocator (the next address `new`
would return); `destroyed` logs every destruction event in order. -/

structure OwnerSys where
  owner : Nat → Option Ptr
  nextRes : Nat
  destroyed : List Nat

/-- The initial machine: no live instances, no resources allocated. -/
def OwnerSys.init : OwnerSys := ⟨fun _ => none, 0, []⟩

/-- Pointwise update of the instance map. -/
def setOwner (f : Nat → Option Ptr) (i : Nat) (v : Option Ptr) :
    Nat → Option Ptr :=
  fun k => if k = i then v else f k

/-- The operations of `UniquePointer`, lifted to named instances.
`construct i p` binds a caller-supplied raw pointer (the C++ constructor
performs no validation of `p`); `constructNew i` and `resetNew i` take their
pointer from a fresh allocation, as `new T()` does in the demo code. -/
inductive Op where
  | construct (i : Nat) (p : Ptr)
  | constructNew (i : Nat)
  | moveConstruct (j i : Nat)
  | moveAssign (i j : Nat)
  | release (i : Nat)
  | reset (i : Nat) (p : Ptr)
  | resetNew (i : Nat)
  | destruct (i : Nat)
deriving DecidableEq

/-- One step of the machine.  Each case mirrors the corresponding member
function of `UniquePointer`; an operation whose instance preconditions fail
(acting on a dead instance, constructing over a live id) leaves the state
unchanged. -/
def OwnerSys.step (s : OwnerSys) : Op → OwnerSys
  | .construct i p =>
      match s.owner i with
      | some _ => s
      | none => { s with owner := setOwner s.owner i (some p) }
  | .constructNew i =>
      match s.owner i with
      | some _ => s
      | none =>
          { s with owner := setOwner s.owner i (some (some s.nextRes)),
                   nextRes := s.nextRes + 1 }
  | .moveConstruct j i =>
      match s.owner i, s.owner j with
      | some p, none =>
          { s with owner := setOwner (setOwner s.owner i (some none)) j (some p) }
      | _, _ => s
  | .moveAssign i j =>
      if i = j then s
      else
        match s.owner i, s.owner j with
        | some pi, some pj =>
            { s with owner := setOwner (setOwner s.owner i (some pj)) j (some none),
                     destroyed := s.destroyed ++ deleteEvents pi }
        | _, _ => s
  | .release i =>
      match s.owner i with
      | some _ => { s with owner := setOwner s.owner i (some none) }
      | none => s
  | .reset i p =>
      match s.owner i with
      | some pi =>
          { s with owner := setOwner s.owner i (some p),
                   destroyed := s.destroyed ++ deleteEvents pi }
      | none => s
  | .resetNew i =>
      match s.owner i with
      | some pi =>
          { s with owner := setOwner s.owner i (some (some s.nextRes)),
                   nextRes := s.nextRes + 1,
                   destroyed := s.destroyed ++ deleteEvents pi }
      | none => s
  | .destruct i =>
      match s.owner i with
      | some pi =>
          { s with owner := setOwner s.owner i none,
                   destroyed := s.destroyed ++ deleteEvents pi }
      | none => s

/-- Run a sequence of operations from the initial machine. -/
def OwnerSys.run (ops : List Op) : OwnerSys :=
  ops.foldl OwnerSys.step OwnerSys.init

/-- Exclusive ownership: no resource is claimed by two distinct live
instances.  A live instance with a null handle (empty, or moved-from) claims
nothing. -/
def OwnerSys.UniqueHandles (s : OwnerSys) : Prop :=
  ∀ i j r, i ≠ j → s.owner i = some (some r) → s.owner j ≠ some (some r)

/-- Every claimed resource was allocated: its id is below the allocator. -/
def OwnerSys.BoundedHandles (s : OwnerSys) : Prop :=
  ∀ i r, s.owner i = some (some r) → r < s.nextRes

/-- The inductive invariant: exclusivity together with allocator bounds. -/
def OwnerSys.Inv (s : OwnerSys) : Prop :=
  s.UniqueHandles ∧ s.BoundedHandles

/-- An operation is fresh-only when any resource it binds comes from a fresh
allocation: `construct` and `reset` may only pass `nullptr` (binding an
arbitrary caller-supplied raw pointer is excluded); the `New` variants and
all transfers are allowed. -/
def Op.freshOnly : Op → Bool
  | .construct _ p => p.isNone
  | .reset _ p => p.isNone
  | _ => true

/-! ## Invariant preservation -/

theorem setOwner_same (f : Nat → Option Ptr) (i : Nat) (v : Option Ptr) :
    setOwner f i v i = v := by
  simp [setOwner]

theorem setOwner_other (f : Nat → Option Ptr) (i k : Nat) (v : Option Ptr)
    (h : k ≠ i) : setOwner f i v k = f k := by
  simp [setOwner, h]

theorem setOwner_comm (f : Nat → Option Ptr) (i j : Nat) (v w : Option Ptr)
    (h : i ≠ j) :
    setOwner (setOwner f i v) j w = setOwner (setOwner f j w) i v := by
  funext k
  by_cases hkj : k = j
  · subst hkj
    rw [setOwner_same, setOwner_other _ _ _ _ (Ne.symm h), setOwner_same]
  · by_cases hki : k = i
    · subst hki
      rw [setOwner_other _ _ _ _ hkj, setOwner_same, setOwner_same]
    · rw [setOwner_other _ _ _ _ hkj, setOwner_other _ _ _ _ hki,
        setOwner_other _ _ _ _ hki, setOwner_other _ _ _ _ hkj]

/-- Updating one instance to a handle that claims nothing (killing it, or
giving it a null handle) preserves the invariant, for any allocator state at
least as advanced and any destruction log. -/
theorem OwnerSys.inv_clear (f : Nat → Option Ptr) (nr nr2 : Nat)
    (d d2 : List Nat) (i : Nat) (v : Option Ptr)
    (hv : v = none ∨ v = some none) (hnr : nr ≤ nr2)
    (h : OwnerSys.Inv ⟨f, nr, d⟩) : OwnerSys.Inv ⟨setOwner f i v, nr2, d2⟩ := by
  obtain ⟨hu, hb⟩ := h
  simp only [OwnerSys.Inv, OwnerSys.UniqueHandles, OwnerSys.BoundedHandles] at hu hb ⊢
  have hvr : ∀ r : Nat, v ≠ some (some r) := by
    intro r hr
    rcases hv with hv | hv <;> simp [hv] at hr
  constructor
  · intro a b r hab ha hb2
    by_cases hai : a = i
    · subst hai
      rw [setOwner_same] at ha
      exact hvr r ha
    · rw [setOwner_other _ _ _ _ hai] at ha
      by_cases hbi : b = i
      · subst hbi
        rw [setOwner_same] at hb2
        exact hvr r hb2
      · rw [setOwner_other _ _ _ _ hbi] at hb2
        exact hu a b r hab ha hb2
  · intro a r ha
    by_cases hai : a = i
    · subst hai
      rw [setOwner_same] at ha
      exact absurd ha (hvr r)
    · rw [setOwner_other _ _ _ _ hai] at ha
      exact lt_of_lt_of_le (hb a r ha) hnr

/-- Giving one instance a freshly allocated resource and advancing the
allocator preserves the invariant. -/
theorem OwnerSys.inv_fresh (f : Nat → Option Ptr) (nr : Nat)
    (d d2 : List Nat) (i : Nat)
    (h : OwnerSys.Inv ⟨f, nr, d⟩) :
    OwnerSys.Inv ⟨setOwner f i (some (some nr)), nr + 1, d2⟩ := by
  obtain ⟨hu, hb⟩ := h
  simp only [OwnerSys.Inv, OwnerSys.UniqueHandles, OwnerSys.BoundedHandles] at hu hb ⊢
  constructor
  · intro a b r hab ha hb2
    by_cases hai : a = i
    · subst hai
      rw [setOwner_same] at ha
      have hrnr : r = nr := by
        simpa using ha.symm
      subst hrnr
      rw [setOwner_other _ _ _ _ (Ne.symm hab)] at hb2
      exact absurd (hb b r hb2) (lt_irrefl r)
    · rw [setOwner_other _ _ _ _ hai] at ha
      by_cases hbi : b = i
      · subst hbi
        rw [setOwner_same] at hb2
        have hrnr : r = nr := by
          simpa using hb2.symm
        subst hrnr
        exact absurd (hb a r ha) (lt_irrefl r)
      · rw [setOwner_other _ _ _ _ hbi] at hb2
        exact hu a b r hab ha hb2
  · intro a r ha
    by_cases hai : a = i
    · subst hai
      rw [setOwner_same] at ha
      have hrnr : r = nr := by
        simpa using ha.symm
      subst hrnr
      exact Nat.lt_succ_self r
    · rw [setOwner_other _ _ _ _ hai] at ha
      exact Nat.lt_succ_of_lt (hb a r ha)

/-- Transferring the handle of instance `a` to instance `b` (clearing `a`)
preserves the invariant. -/
theorem OwnerSys.inv_transfer (f : Nat → Option Ptr) (nr : Nat)
    (d d2 : List Nat) (a b : Nat) (p : Ptr)
    (hab : b ≠ a) (ha : f a = some p)
    (h : OwnerSys.Inv ⟨f, nr, d⟩) :
    OwnerSys.Inv ⟨setOwner (setOwner f a (some none)) b (some p), nr, d2⟩ := by
  obtain ⟨hu, hb⟩ := h
  simp only [OwnerSys.Inv, OwnerSys.UniqueHandles, OwnerSys.BoundedHandles] at hu hb ⊢
  have keyval : ∀ k : Nat,
      setOwner (setOwner f a (some none)) b (some p) k =
        if k = b then some p else if k = a then some none else f k := by
    intro k
    by_cases hkb : k = b
    · subst hkb
      rw [setOwner_same, if_pos rfl]
    · rw [setOwner_other _ _ _ _ hkb, if_neg hkb]
      by_cases hka : k = a
      · subst hka
        rw [setOwner_same, if_pos rfl]
      · rw [setOwner_other _ _ _ _ hka, if_neg hka]
  constructor
  · intro x y r hxy hx hy
    rw [keyval] at hx hy
    by_cases hxb : x = b
    · subst hxb
      rw [if_pos rfl] at hx
      by_cases hya : y = a
      · subst hya
        rw [if_neg (fun e => hxy e.symm), if_pos rfl] at hy
        simp at hy
      · rw [if_neg (fun e => hxy e.symm), if_neg hya] at hy
        have hpr : p = some r := by
          simpa using hx
        exact hu a y r (fun e => hya e.symm) (hpr ▸ ha) hy
    · rw [if_neg hxb] at hx
      by_cases hxa : x = a
      · subst hxa
        rw [if_pos rfl] at hx
        simp at hx
      · rw [if_neg hxa] at hx
        by_cases hyb : y = b
        · subst hyb
          rw [if_pos rfl] at hy
          have hpr : p = some r := by
            simpa using hy
          exact hu x a r hxa hx (hpr ▸ ha)
        · rw [if_neg hyb] at hy
          by_cases hya : y = a
          · subst hya
            rw [if_pos rfl] at hy
            simp at hy
          · rw [if_neg hya] at hy
            exact hu x y r hxy hx hy
  · intro x r hx
    rw [keyval] at hx
    by_cases hxb : x = b
    · subst hxb
      rw [if_pos rfl] at hx
      have hpr : p = some r := by
        simpa using hx
      exact hb a r (hpr ▸ ha)
    · rw [if_neg hxb] at hx
      by_cases hxa : x = a
      · subst hxa
        rw [if_pos rfl] at hx
        simp at hx
      · rw [if_neg hxa] at hx
        exact hb x r hx

/-- The initial machine satisfies the invariant. -/
theorem OwnerSys.init_inv : OwnerSys.init.Inv := by
  simp only [OwnerSys.Inv, OwnerSys.UniqueHandles, OwnerSys.BoundedHandles,
    OwnerSys.init]
  constructor
  · intro i j r _ hi
    cases hi
  · intro i r hi
    cases hi

/-- Every fresh-only operation preserves the invariant. -/
theorem OwnerSys.inv_step (s : OwnerSys) (op : Op) (hf : op.freshOnly = true)
    (h : s.Inv) : (s.step op).Inv := by
  obtain ⟨f, nr, d⟩ := s
  cases op with
  | construct i p =>
      have hp : p = none := by
        simpa [Op.freshOnly, Option.isNone_iff_eq_none] using hf
      subst hp
      rcases hoi : f i with _ | q
      · simp only [OwnerSys.step, hoi]
        exact OwnerSys.inv_clear f nr nr d d i (some none) (Or.inr rfl) le_rfl h
      · simp only [OwnerSys.step, hoi]
        exact h
  | constructNew i =>
      rcases hoi : f i with _ | q
      · simp only [OwnerSys.step, hoi]
        exact OwnerSys.inv_fresh f nr d d i h
      · simp only [OwnerSys.step, hoi]
        exact h
  | moveConstruct j i =>
      rcases hoi : f i with _ | p
      · rcases hoj : f j with _ | q <;> simp only [OwnerSys.step, hoi, hoj] <;>
          exact h
      · rcases hoj : f j with _ | q
        · simp only [OwnerSys.step, hoi, hoj]
          have hij : j ≠ i := by
            intro e
            rw [e, hoi] at hoj
            cases hoj
          exact OwnerSys.inv_transfer f nr d d i j p hij hoi h
        · simp only [OwnerSys.step, hoi, hoj]
          exact h
  | moveAssign i j =>
      by_cases hij : i = j
      · simp only [OwnerSys.step, hij, if_pos rfl]
        exact h
      · rcases hoi : f i with _ | pi
        · rcases hoj : f j with _ | pj <;>
            simp only [OwnerSys.step, if_neg hij, hoi, hoj] <;> exact h
        · rcases hoj : f j with _ | pj
          · simp only [OwnerSys.step, if_neg hij, hoi, hoj]
            exact h
          · simp only [OwnerSys.step, if_neg hij, hoi, hoj]
            rw [setOwner_comm f i j (some pj) (some none) hij]
            exact OwnerSys.inv_transfer f nr d (d ++ deleteEvents pi) j i pj
              hij hoj h
  | release i =>
      rcases hoi : f i with _ | q
      · simp only [OwnerSys.step, hoi]
        exact h
      · simp only [OwnerSys.step, hoi]
        exact OwnerSys.inv_clear f nr nr d d i (some none) (Or.inr rfl) le_rfl h
  | reset i p =>
      have hp : p = none := by
        simpa [Op.freshOnly, Option.isNone_iff_eq_none] using hf
      subst hp
      rcases hoi : f i with _ | q
      · simp only [OwnerSys.step, hoi]
        exact h
      · simp only [OwnerSys.step, hoi]
        exact OwnerSys.inv_clear f nr nr d (d ++ deleteEvents q) i (some none)
          (Or.inr rfl) le_rfl h
  | resetNew i =>
      rcases hoi : f i with _ | q
      · simp only [OwnerSys.step, hoi]
        exact h
      · simp only [OwnerSys.step, hoi]
        exact OwnerSys.inv_fresh f nr d (d ++ deleteEvents q) i h
  | destruct i =>
      rcases hoi : f i with _ | q
      · simp only [OwnerSys.step, hoi]
        exact h
      · simp only [OwnerSys.step, hoi]
        exact OwnerSys.inv_clear f nr nr d (d ++ deleteEvents q) i none
          (Or.inl rfl) le_rfl h

/-- Folding fresh-only operations from an invariant state keeps the
invariant. -/
theorem OwnerSys.run_inv_aux (ops : List Op) :
    ∀ s : OwnerSys, s.Inv → (∀ op ∈ ops, op.freshOnly = true) →
      (ops.foldl OwnerSys.step s).Inv := by
  induction ops with
  | nil =>
      intro s hs _
      simpa using hs
  | cons op rest ih =>
      intro s hs hops
      simp only [List.foldl_cons]
      refine ih (s.step op) (OwnerSys.inv_step s op (hops op (by simp)) hs) ?_
      intro o ho
      exact hops o (by simp [ho])

/-! ## Claims -/

/-- Claim C1: constructing a `UniquePointer` over resource `r` and then
destroying the owner destroys `r` exactly once, and destroying an owner
constructed empty performs no destruction. -/
theorem uniquePointer_construct_destruct_once (r : Nat) :
    (UniquePointer.construct (some r)).destruct = [r] ∧
    ((UniquePointer.construct (some r)).destruct).count r = 1 ∧
    (UniquePointer.construct none).destruct = [] := by
  refine ⟨rfl, ?_, rfl⟩
  simp [UniquePointer.construct, UniquePointer.destruct, deleteEvents]

/-- Claim C3: move assignment from a distinct source owning `y` into a
receiver owning `x` destroys `x` exactly once during the assignment, leaves
the receiver holding `y` and the source empty; move assignment of an
instance to itself performs no destruction and changes nothing. -/
theorem uniquePointer_moveAssign_spec (x y : Nat) (u : UniquePointer) :
    (UniquePointer.moveAssign ⟨some x⟩ ⟨some y⟩ false).2.2 = [x] ∧
    ((UniquePointer.moveAssign ⟨some x⟩ ⟨some y⟩ false).2.2).count x = 1 ∧
    (UniquePointer.moveAssign ⟨some x⟩ ⟨some y⟩ false).1.ptr = some y ∧
    (UniquePointer.moveAssign ⟨some x⟩ ⟨some y⟩ false).2.1.ptr = none ∧
    UniquePointer.moveAssign u u true = (u, u, []) := by
  refine ⟨rfl, ?_, rfl, rfl, rfl⟩
  simp [UniquePointer.moveAssign, deleteEvents]

/-- Claim C4: move construction from a source with handle `p` yields a new
instance with exactly handle `p`, leaves the source empty, and destroys
nothing; destroying the new instance then destroys the resource exactly
once, and destroying the moved-from source destroys nothing. -/
theorem uniquePointer_moveConstruct_spec (r : Nat) (p : Ptr) :
    UniquePointer.moveConstruct ⟨p⟩ = (⟨p⟩, ⟨none⟩, []) ∧
    (UniquePointer.moveConstruct ⟨some r⟩).1.destruct = [r] ∧
    (UniquePointer.moveConstruct ⟨p⟩).2.1.destruct = [] := by
  exact ⟨rfl, rfl, rfl⟩

/-- Claim C5: `release` returns the previous handle, performs no
destruction, and leaves the owner empty; destroying the now-empty owner
performs no destruction. -/
theorem uniquePointer_release_spec (p : Ptr) :
    (⟨p⟩ : UniquePointer).release = (p, ⟨none⟩, []) ∧
    ((⟨p⟩ : UniquePointer).release).2.1.destruct = [] := by
  exact ⟨rfl, rfl⟩

/-- Claim C6: `reset` on an owner holding resource `r` destroys `r` exactly
once (the destruction events are those of the old handle, never of the new
one) and then installs the new handle; `reset` with a null argument leaves
the owner empty; `reset` on an empty owner destroys nothing. -/
theorem uniquePointer_reset_spec (r : Nat) (p q : Ptr) :
    (UniquePointer.reset ⟨some r⟩ p).2 = [r] ∧
    ((UniquePointer.reset ⟨some r⟩ p).2).count r = 1 ∧
    (UniquePointer.reset ⟨some r⟩ p).1.ptr = p ∧
    (UniquePointer.reset ⟨q⟩ none).1.ptr = none ∧
    (UniquePointer.reset ⟨none⟩ p).2 = [] := by
  refine ⟨rfl, ?_, rfl, rfl, rfl⟩
  simp [UniquePointer.reset, deleteEvents]

/-- Claim C8: `smartPointer` offers shallow copy and an unconditional
destructor, so copying an owner of resource `r` and destroying both
instances destroys `r` twice. -/
theorem smartPointer_double_free (r : Nat) :
    (smartPointer.copy (smartPointer.construct (some r))).ptr =
      (smartPointer.construct (some r)).ptr ∧
    ((smartPointer.construct (some r)).destruct ++
      (smartPointer.copy (smartPointer.construct (some r))).destruct).count r
      = 2 := by
  refine ⟨rfl, ?_⟩
  simp [smartPointer.construct, smartPointer.copy, smartPointer.destruct,
    deleteEvents]

/-- Claim C9: dereference and member access perform no null check: on a
non-empty owner with handle `some r`, dereference yields the managed
resource `r` and member access yields the raw handle to that same resource;
on an empty owner dereference yields no defined resource (undefined
behavior, not a reported error) and member access yields the null handle. -/
theorem uniquePointer_deref_unchecked :
    (∀ (u : UniquePointer) (r : Nat), u.ptr = some r →
        u.deref = some r ∧ u.arrow = some r) ∧
    (∀ u : UniquePointer, u.ptr = none → u.deref = none ∧ u.arrow = none) :=
  ⟨fun _ _ h => ⟨h, h⟩, fun _ h => ⟨h, h⟩⟩

/-- Witness for claim C9 at concrete owners. -/
theorem uniquePointer_deref_unchecked_witness :
    ((⟨some 5⟩ : UniquePointer).ptr = some 5 ∧
        (⟨some 5⟩ : UniquePointer).deref = some 5) ∧
    ((⟨none⟩ : UniquePointer).ptr = none ∧
        (⟨none⟩ : UniquePointer).deref = none) :=
  ⟨⟨rfl, (uniquePointer_deref_unchecked.1 ⟨some 5⟩ 5 rfl).1⟩,
    ⟨rfl, (uniquePointer_deref_unchecked.2 ⟨none⟩ rfl).1⟩⟩

/-- Claim C10: `w.reset(w.release())` destroys nothing and leaves `w`
managing exactly the handle it had before, in every state of `w`. -/
theorem uniquePointer_releaseThenReset_spec (p : Ptr) :
    (⟨p⟩ : UniquePointer).releaseThenReset = (⟨p⟩, []) := rfl

/-- Claim C2, counterexample to the claim as stated: the constructor binds a
caller-supplied raw pointer without validation, so constructing two owners
over the same resource yields two live instances claiming one resource. -/
theorem uniquePointer_exclusive_ownership_counterexample :
    ¬ (OwnerSys.run
        [Op.construct 0 (some 0), Op.construct 1 (some 0)]).UniqueHandles := by
  intro h
  exact h 0 1 0 (by decide) rfl rfl

/-- Claim C2 (amended): along every sequence of `UniquePointer` operations
in which `construct` and `reset` bind only the null handle or a freshly
allocated resource, at every point (every prefix of the sequence) each live
instance either is empty or claims a resource claimed by no other live
instance. -/
theorem uniquePointer_exclusive_ownership (ops : List Op)
    (h : ∀ op ∈ ops, op.freshOnly = true) (n : Nat) :
    (OwnerSys.run (List.take n ops)).UniqueHandles := by
  have hsub : ∀ op ∈ List.take n ops, op.freshOnly = true := by
    intro o ho
    exact h o (List.take_subset n ops ho)
  exact (OwnerSys.run_inv_aux (List.take n ops) OwnerSys.init
    OwnerSys.init_inv hsub).1

/-- Witness for claim C2 on a concrete fresh-only operation sequence. -/
theorem uniquePointer_exclusive_ownership_witness :
    (OwnerSys.run (List.take 3
        [Op.constructNew 0, Op.moveConstruct 1 0, Op.moveAssign 0 1,
          Op.release 0, Op.resetNew 0, Op.destruct 0,
          Op.destruct 1])).UniqueHandles :=
  uniquePointer_exclusive_ownership
    [Op.constructNew 0, Op.moveConstruct 1 0, Op.moveAssign 0 1,
      Op.release 0, Op.resetNew 0, Op.destruct 0, Op.destruct 1]
    (by decide) 3
